import Mathlib

/-!
Shallow embedding of `ModelLoader::loadModel`
(src/UltimateReaverEngine/source/ModelLoader.cpp) together with the data it
manipulates (`MeshComponent`, src/UltimateReaverEngine/include/MeshComponent.h).

Modelling conventions:
* Scalar fields (`float` components of `XMFLOAT2`/`XMFLOAT3`) are modelled as
  exact rationals: no property considered here depends on floating-point
  rounding, only on which entries are stored and on the exact literal `(0,0)`
  texture-coordinate default.
* `std::map<std::string,int> uniqueVertex` is used by the code only through
  `find` and insertion of a key that `find` just failed on; it is modelled as
  an association list with cons-insertion and `List.lookup`.
* A line read by `std::getline(file, line)` is a `String`; stream extraction
  `ls >> tok` is modelled by splitting the line at whitespace (`wordsOf`).
  Failed numeric extraction stores `0` in the target (C++11 `num_get`
  semantics), which `readScalar` mirrors with `Option.getD _ 0`.
* The file system is abstracted by `ObjFile`: `fileExistsA` is the result of
  the `GetFileAttributesA` check, `isOpen` the result of `ifstream::is_open`,
  and `lines` the successive results of `std::getline` on the open stream.
* `loadModel` writes into the caller-supplied `MeshComponent` exactly where
  the C++ mutates `outMesh`; a fatal mid-parse abort therefore leaves the
  partially pushed vertex/index vectors in the component (`Except.error`
  carries the parser state reached at the abort).
-/

namespace UltimateReaverEngine

/-- `XMFLOAT3` (DirectXMath): three scalar components. -/
structure XMFLOAT3 where
  x : ℚ
  y : ℚ
  z : ℚ
  deriving DecidableEq

/-- `XMFLOAT2` (DirectXMath): two scalar components. -/
structure XMFLOAT2 where
  x : ℚ
  y : ℚ
  deriving DecidableEq

/-- `SimpleVertex` (Prerequisites.h): position + texture coordinate. -/
structure SimpleVertex where
  Pos : XMFLOAT3
  Tex : XMFLOAT2
  deriving DecidableEq

/-- `MeshComponent` (MeshComponent.h): the fields `loadModel` touches, plus
the name it never touches. -/
structure MeshComponent where
  m_name : String
  m_vertex : List SimpleVertex
  m_index : List Nat
  m_numVertex : Int
  m_numIndex : Int
  deriving DecidableEq

/-- Abstraction of the file system state observed by `loadModel`:
`fileExistsA` is the `GetFileAttributesA` existence/not-a-directory check,
`isOpen` whether `std::ifstream` opened, `lines` the lines `std::getline`
would produce. -/
structure ObjFile where
  fileExistsA : Bool
  isOpen : Bool
  lines : List String
  deriving DecidableEq

/-- Value of a digit run, most significant first (`std::stoi` accumulation). -/
def digitsToNat (ds : List Char) : Nat :=
  ds.foldl (fun a c => 10 * a + (c.toNat - 48)) 0

/-- `std::stoi`: skip whitespace, optional sign, then a non-empty digit run
(later characters are ignored).  `none` models the thrown
`invalid_argument`/`out_of_range` exception (no digits, or outside `int`
range). -/
def stoi? (cs : List Char) : Option Int :=
  let cs1 := cs.dropWhile Char.isWhitespace
  let sgn : Int := match cs1 with
    | '-' :: _ => -1
    | _ => 1
  let cs2 : List Char := match cs1 with
    | '-' :: r => r
    | '+' :: r => r
    | r => r
  let ds := cs2.takeWhile Char.isDigit
  if ds.isEmpty then none
  else
    let v : Int := sgn * (digitsToNat ds : Int)
    if v < -(2 ^ 31) ∨ (2 ^ 31 : Int) ≤ v then none else some v

/-- `std::getline(vs, tok, '/')` on the remaining characters of a
stringstream: fails exactly when no characters remain, otherwise yields the
run before the first `'/'` and the characters after that `'/'` (the delimiter
is consumed and discarded). -/
def getlineSlash (cs : List Char) : Option (List Char × List Char) :=
  match cs with
  | [] => none
  | _ => some (cs.takeWhile (· != '/'), (cs.dropWhile (· != '/')).drop 1)

/-- The three indices parsed out of one face token (`posIdx`, `texIdx`,
`nrmIdx` in the C++), all 0-based, `-1` when absent or unparsable. -/
structure FaceRef where
  posIdx : Int
  texIdx : Int
  nrmIdx : Int
  deriving DecidableEq

/-- Parse `stoi(tok) - 1` with the enclosing `try`/`catch` that leaves the
index at `-1` on failure. -/
def idxOfTok (tok : List Char) : Int :=
  match stoi? tok with
  | some v => v - 1
  | none => -1

/-- The face-token scanner of `loadModel` (ModelLoader.cpp, the block that
fills `posIdx`/`texIdx`/`nrmIdx`), on the token characters: supports `v`,
`v/t`, `v/t/n`, `v//n`. -/
def parseChunkCore (cs : List Char) : FaceRef :=
  match getlineSlash cs with
  | none => ⟨-1, -1, -1⟩
  | some (first, r1) =>
    let posIdx : Int := if first.isEmpty then -1 else idxOfTok first
    if r1.head? = some '/' then
      -- the `v//n` case: `vs.peek() == '/'`, consume it, read the normal
      match getlineSlash (r1.drop 1) with
      | none => ⟨posIdx, -1, -1⟩
      | some (third, _) =>
        ⟨posIdx, -1, if third.isEmpty then -1 else idxOfTok third⟩
    else
      match getlineSlash r1 with
      | none => ⟨posIdx, -1, -1⟩
      | some (second, r2) =>
        let texIdx : Int := if second.isEmpty then -1 else idxOfTok second
        match getlineSlash r2 with
        | none => ⟨posIdx, texIdx, -1⟩
        | some (third, _) =>
          ⟨posIdx, texIdx, if third.isEmpty then -1 else idxOfTok third⟩

/-- See `parseChunkCore`. -/
def parseChunk (chunk : String) : FaceRef :=
  parseChunkCore chunk.toList

/-- Whitespace-delimited words of a line, in order: the successive results of
`ls >> tok` on a `std::stringstream` built from the line. -/
def wordsAux : List Char → List Char → List String
  | [], acc => if acc.isEmpty then [] else [String.mk acc.reverse]
  | c :: cs, acc =>
    if c.isWhitespace then
      if acc.isEmpty then wordsAux cs [] else String.mk acc.reverse :: wordsAux cs []
    else wordsAux cs (c :: acc)

/-- See `wordsAux`. -/
def wordsOf (line : String) : List String :=
  wordsAux line.toList []

/-- `operator>>` into a `float`, for one extracted word: optional sign,
decimal digits with an optional fractional part, kept exact as a rational
`(int.frac) = (int·10^k + frac) / 10^k`.  Exponent and hex forms are not
exercised by any property below.  `none` models extraction failure. -/
def parseScalar? (cs : List Char) : Option ℚ :=
  let sgn : Int := match cs with
    | '-' :: _ => -1
    | _ => 1
  let cs1 : List Char := match cs with
    | '-' :: r => r
    | '+' :: r => r
    | r => r
  let intDs := cs1.takeWhile Char.isDigit
  let cs2 := cs1.drop intDs.length
  let fracDs : List Char := match cs2 with
    | '.' :: r => r.takeWhile Char.isDigit
    | _ => []
  if intDs.isEmpty ∧ fracDs.isEmpty then none
  else
    some (mkRat
      (sgn * ((digitsToNat intDs * 10 ^ fracDs.length + digitsToNat fracDs : Nat) : Int))
      (10 ^ fracDs.length))

/-- One scalar extraction: a failed or missing extraction stores `0`
(C++11 `num_get` failure semantics). -/
def readScalar (ws : List String) (i : Nat) : ℚ :=
  (parseScalar? ((ws.getD i "").toList)).getD 0

/-- `ls >> p.x >> p.y >> p.z` after the tag has been consumed. -/
def readVec3 (ws : List String) : XMFLOAT3 :=
  ⟨readScalar ws 0, readScalar ws 1, readScalar ws 2⟩

/-- `ls >> uv.x >> uv.y` after the tag has been consumed. -/
def readVec2 (ws : List String) : XMFLOAT2 :=
  ⟨readScalar ws 0, readScalar ws 1⟩

/-- The parser state of one `loadModel` call: the local accumulators
(`tempPos`, `tempUV`, `tempNrm`, `uniqueVertex`) together with the two
`outMesh` vectors being filled in place. -/
structure LoadState where
  tempPos : List XMFLOAT3
  tempUV : List XMFLOAT2
  tempNrm : List XMFLOAT3
  uniqueVertex : List (String × Nat)
  vertex : List SimpleVertex
  index : List Nat
  deriving DecidableEq

deriving instance DecidableEq for Except

/-- State right after the `outMesh` clear: everything empty. -/
def initState : LoadState :=
  { tempPos := [], tempUV := [], tempNrm := [], uniqueVertex := [],
    vertex := [], index := [] }

/-- The texture coordinate stored for a fresh face token:
`tempUV[texIdx]` when the 0-based index is in range, else the `{0,0}`
default. -/
def chunkTex (st : LoadState) (r : FaceRef) : XMFLOAT2 :=
  if 0 ≤ r.texIdx ∧ r.texIdx < (st.tempUV.length : Int) then
    st.tempUV.getD r.texIdx.toNat ⟨0, 0⟩
  else ⟨0, 0⟩

/-- The `SimpleVertex` built for a fresh face token (position looked up,
texture coordinate defaulted when missing/out of range; normals are parsed
but not stored, as in the source). -/
def chunkVertex (st : LoadState) (r : FaceRef) : SimpleVertex :=
  ⟨st.tempPos.getD r.posIdx.toNat ⟨0, 0, 0⟩, chunkTex st r⟩

/-- Resolution of one face token (the body of `while (ls >> chunk)`):
reuse the mapped index when the exact token was seen before; otherwise parse
it, fail fatally (`.error` carrying the untouched state) when the position
index is out of range, else append a new vertex and record the token. -/
def resolveChunk (st : LoadState) (chunk : String) :
    Except LoadState (LoadState × Nat) :=
  match st.uniqueVertex.lookup chunk with
  | some i => .ok (st, i)
  | none =>
    let r := parseChunk chunk
    if r.posIdx < 0 ∨ (st.tempPos.length : Int) ≤ r.posIdx then .error st
    else
      let fi := st.vertex.length
      .ok ({ st with
              vertex := st.vertex ++ [chunkVertex st r],
              uniqueVertex := (chunk, fi) :: st.uniqueVertex }, fi)

/-- Resolution of all tokens of one face line, collecting `faceIdx`;
a fatal token aborts with the state reached so far. -/
def resolveChunks (st : LoadState) :
    List String → Except LoadState (LoadState × List Nat)
  | [] => .ok (st, [])
  | c :: cs =>
    match resolveChunk st c with
    | .error e => .error e
    | .ok (st1, i) =>
      match resolveChunks st1 cs with
      | .error e => .error e
      | .ok (st2, is) => .ok (st2, i :: is)

/-- The fan-triangulation loop
`for (i = 1; i + 1 < faceIdx.size(); ++i) push f0, f[i], f[i+1]`,
expressed structurally: `fanFrom v0 [a, b, rest...]` walks the successive
pairs `(f[i], f[i+1])`. -/
def fanFrom (v0 : Nat) : List Nat → List Nat
  | a :: b :: rest => v0 :: a :: b :: fanFrom v0 (b :: rest)
  | _ => []

/-- Indices pushed for one face: fan around the face's first vertex. -/
def fanIndices : List Nat → List Nat
  | [] => []
  | v0 :: rest => fanFrom v0 rest

/-- Processing of one line of the file (the body of
`while (std::getline(file, line))`). -/
def processLine (st : LoadState) (line : String) :
    Except LoadState LoadState :=
  if line = "" ∨ line.front = '#' then .ok st
  else
    let ws := wordsOf line
    let tag := ws.headD ""
    if tag = "v" then .ok { st with tempPos := st.tempPos ++ [readVec3 ws.tail] }
    else if tag = "vt" then .ok { st with tempUV := st.tempUV ++ [readVec2 ws.tail] }
    else if tag = "vn" then .ok { st with tempNrm := st.tempNrm ++ [readVec3 ws.tail] }
    else if tag = "f" then
      match resolveChunks st ws.tail with
      | .error e => .error e
      | .ok (st1, faceIdx) =>
        if faceIdx.length < 3 then .ok st1
        else .ok { st1 with index := st1.index ++ fanIndices faceIdx }
    else .ok st

/-- Sequential processing of the whole file; a fatal line aborts at once
with the state reached at the abort. -/
def processLines (st : LoadState) : List String → Except LoadState LoadState
  | [] => .ok st
  | l :: ls =>
    match processLine st l with
    | .error e => .error e
    | .ok st1 => processLines st1 ls

/-- The final (or abort-time) write-back into `outMesh`: the two vectors are
whatever the parser pushed, the counters are the given values. -/
def storeMesh (m : MeshComponent) (st : LoadState) (nv ni : Int) :
    MeshComponent :=
  { m with m_vertex := st.vertex, m_index := st.index,
           m_numVertex := nv, m_numIndex := ni }

/-- `ModelLoader::loadModel`: existence check, open check, clear of the
destination, line loop, counter write-back, empty-mesh check.  The returned
`Bool` is the C++ return value; the returned `MeshComponent` is `outMesh`
after the call. -/
def loadModel (file : ObjFile) (outMesh : MeshComponent) :
    Bool × MeshComponent :=
  if !file.fileExistsA then (false, outMesh)
  else if !file.isOpen then (false, outMesh)
  else
    match processLines initState file.lines with
    | .error st =>
      -- fatal mid-parse abort: the vectors hold what was pushed so far,
      -- the counters still hold the 0 written by the initial clear
      (false, storeMesh outMesh st 0 0)
    | .ok st =>
      let nv : Int := st.vertex.length
      let ni : Int := st.index.length
      let m := storeMesh outMesh st nv ni
      if nv = 0 ∨ ni = 0 then (false, m) else (true, m)

/-! ### Derived / measurement definitions used to state the properties -/

/-- The keys of the deduplication map, as a finite set of token strings. -/
def keysF (st : LoadState) : Finset String :=
  (st.uniqueVertex.map Prod.fst).toFinset

/-- The face tokens a line contributes: the words after the tag on a
non-skipped `f` line, nothing otherwise. -/
def lineTokens (line : String) : List String :=
  if line = "" ∨ line.front = '#' then []
  else if (wordsOf line).headD "" = "f" then (wordsOf line).tail else []

/-- All face tokens of a file, in reading order (with repetitions). -/
def faceTokens (lines : List String) : List String :=
  lines.flatMap lineTokens

/-- The triangles the specification promises for a face `[v0, v1, ..., vn]`:
`(v0, v1, v2), (v0, v2, v3), ..., (v0, v(n-1), vn)`, written with positional
indexing as in the specification text. -/
def specFanTriangles (vs : List Nat) : List (Nat × Nat × Nat) :=
  (List.range (vs.length - 2)).map fun k =>
    (vs.getD 0 0, vs.getD (k + 1) 0, vs.getD (k + 2) 0)

/-- Flattening of the specification triangles into an index stream. -/
def specFanFlat (vs : List Nat) : List Nat :=
  (specFanTriangles vs).flatMap fun t => [t.1, t.2.1, t.2.2]

/-! ### Association-list facts about the deduplication map -/

theorem lookup_cons {k : String} {v : Nat} {es : List (String × Nat)}
    {c : String} :
    List.lookup c ((k, v) :: es) = if c = k then some v else es.lookup c := by
  simp only [List.lookup]
  rcases hck : c == k with _ | _
  · rw [if_neg (by simpa using hck)]
  · rw [if_pos (by simpa using hck)]

theorem lookup_mem {l : List (String × Nat)} {c : String} {i : Nat}
    (h : l.lookup c = some i) : (c, i) ∈ l := by
  induction l with
  | nil => simp [List.lookup] at h
  | cons e es ih =>
    obtain ⟨k, v⟩ := e
    rw [lookup_cons] at h
    by_cases hck : c = k
    · rw [if_pos hck] at h
      obtain rfl := hck
      obtain rfl : v = i := by simpa using h
      exact List.mem_cons_self _ _
    · rw [if_neg hck] at h
      exact List.mem_cons_of_mem _ (ih h)

theorem lookup_isSome_iff {l : List (String × Nat)} {c : String} :
    (l.lookup c).isSome = true ↔ c ∈ l.map Prod.fst := by
  induction l with
  | nil => simp [List.lookup]
  | cons e es ih =>
    obtain ⟨k, v⟩ := e
    rw [lookup_cons]
    by_cases hck : c = k
    · subst hck
      simp
    · rw [if_neg hck]
      simp only [List.map_cons, List.mem_cons, ih]
      constructor
      · exact Or.inr
      · rintro (rfl | h)
        · exact absurd rfl hck
        · exact h

theorem lookup_eq_none_iff {l : List (String × Nat)} {c : String} :
    l.lookup c = none ↔ c ∉ l.map Prod.fst := by
  rw [← lookup_isSome_iff]
  cases l.lookup c <;> simp

/-! ### Case analysis of `resolveChunk` -/

/-- A seen token is reused: same state, previously mapped index. -/
theorem resolveChunk_found {st : LoadState} {c : String} {i : Nat}
    (h : st.uniqueVertex.lookup c = some i) :
    resolveChunk st c = .ok (st, i) := by
  simp [resolveChunk, h]

/-- A fresh token with an in-range position index appends one vertex and
registers the token at the new index. -/
theorem resolveChunk_fresh_ok {st : LoadState} {c : String}
    (h : st.uniqueVertex.lookup c = none)
    (hp : ¬((parseChunk c).posIdx < 0 ∨
        (st.tempPos.length : Int) ≤ (parseChunk c).posIdx)) :
    resolveChunk st c =
      .ok ({ st with
              vertex := st.vertex ++ [chunkVertex st (parseChunk c)],
              uniqueVertex := (c, st.vertex.length) :: st.uniqueVertex },
           st.vertex.length) := by
  simp [resolveChunk, h, hp]

/-- A fresh token with an out-of-range position index fails fatally, leaving
the state untouched. -/
theorem resolveChunk_fresh_err {st : LoadState} {c : String}
    (h : st.uniqueVertex.lookup c = none)
    (hp : (parseChunk c).posIdx < 0 ∨
        (st.tempPos.length : Int) ≤ (parseChunk c).posIdx) :
    resolveChunk st c = .error st := by
  simp [resolveChunk, h, hp]

/-- `resolveChunk` fails exactly on a fresh token whose position index is
negative or not below the accumulated position count, and the error carries
the untouched state. -/
theorem resolveChunk_error_iff {st e : LoadState} {c : String} :
    resolveChunk st c = .error e ↔
      e = st ∧ st.uniqueVertex.lookup c = none ∧
        ((parseChunk c).posIdx < 0 ∨
          (st.tempPos.length : Int) ≤ (parseChunk c).posIdx) := by
  constructor
  · intro h
    rcases hl : st.uniqueVertex.lookup c with _ | i
    · by_cases hp : (parseChunk c).posIdx < 0 ∨
          (st.tempPos.length : Int) ≤ (parseChunk c).posIdx
      · refine ⟨?_, rfl, hp⟩
        rw [resolveChunk_fresh_err hl hp] at h
        exact (Except.error.inj h).symm
      · rw [resolveChunk_fresh_ok hl hp] at h
        exact absurd h (by simp)
    · rw [resolveChunk_found hl] at h
      exact absurd h (by simp)
  · rintro ⟨rfl, hl, hp⟩
    exact resolveChunk_fresh_err hl hp

/-- Inversion for a successful resolution: either reuse or fresh append. -/
theorem resolveChunk_ok_cases {st st1 : LoadState} {c : String} {i : Nat}
    (h : resolveChunk st c = .ok (st1, i)) :
    (st.uniqueVertex.lookup c = some i ∧ st1 = st) ∨
      (st.uniqueVertex.lookup c = none ∧
        ¬((parseChunk c).posIdx < 0 ∨
            (st.tempPos.length : Int) ≤ (parseChunk c).posIdx) ∧
        i = st.vertex.length ∧
        st1 = { st with
                 vertex := st.vertex ++ [chunkVertex st (parseChunk c)],
                 uniqueVertex := (c, st.vertex.length) :: st.uniqueVertex }) := by
  rcases hl : st.uniqueVertex.lookup c with _ | j
  · by_cases hp : (parseChunk c).posIdx < 0 ∨
        (st.tempPos.length : Int) ≤ (parseChunk c).posIdx
    · rw [resolveChunk_fresh_err hl hp] at h
      exact absurd h (by simp)
    · rw [resolveChunk_fresh_ok hl hp] at h
      simp only [Except.ok.injEq, Prod.mk.injEq] at h
      obtain ⟨h1, h2⟩ := h
      exact Or.inr ⟨rfl, hp, h2.symm, h1.symm⟩
  · rw [resolveChunk_found hl] at h
    simp only [Except.ok.injEq, Prod.mk.injEq] at h
    obtain ⟨h1, h2⟩ := h
    exact Or.inl ⟨by rw [h2], h1.symm⟩

/-! ### Fan-triangulation facts -/

theorem fanFrom_mem (v0 : Nat) :
    ∀ (l : List Nat), ∀ x ∈ fanFrom v0 l, x = v0 ∨ x ∈ l
  | [] => by simp [fanFrom]
  | [a] => by simp [fanFrom]
  | a :: b :: rest => by
    intro x hx
    simp only [fanFrom, List.mem_cons] at hx
    rcases hx with rfl | rfl | rfl | hx
    · exact Or.inl rfl
    · simp
    · simp
    · rcases fanFrom_mem v0 (b :: rest) x hx with h | h
      · exact Or.inl h
      · exact Or.inr (List.mem_cons_of_mem _ h)

theorem fanFrom_length (v0 : Nat) :
    ∀ (l : List Nat), (fanFrom v0 l).length % 3 = 0
  | [] => by simp [fanFrom]
  | [a] => by simp [fanFrom]
  | a :: b :: rest => by
    have ih := fanFrom_length v0 (b :: rest)
    simp only [fanFrom, List.length_cons]
    omega

theorem fanIndices_mem {l : List Nat} {x : Nat}
    (hx : x ∈ fanIndices l) : x ∈ l := by
  cases l with
  | nil => simp [fanIndices] at hx
  | cons v0 rest =>
    rcases fanFrom_mem v0 rest x hx with rfl | h
    · exact List.mem_cons_self _ _
    · exact List.mem_cons_of_mem _ h

theorem fanIndices_length (l : List Nat) :
    (fanIndices l).length % 3 = 0 := by
  cases l with
  | nil => simp [fanIndices]
  | cons v0 rest => exact fanFrom_length v0 rest

/-- The implemented fan loop produces exactly the triangles promised by the
specification (flattened). -/
theorem fanFrom_eq_spec (v0 : Nat) :
    ∀ (rest : List Nat),
      fanFrom v0 rest =
        ((List.range (rest.length - 1)).map fun k =>
          ((v0 : Nat), rest.getD k 0, rest.getD (k + 1) 0)).flatMap
            (fun t => [t.1, t.2.1, t.2.2])
  | [] => by simp [fanFrom]
  | [a] => by simp [fanFrom]
  | a :: b :: rest => by
    have ih := fanFrom_eq_spec v0 (b :: rest)
    simp only [fanFrom, List.length_cons]
    rw [show (rest.length + 1 + 1 - 1) = (rest.length + 1 - 1) + 1 from rfl,
        List.range_succ_eq_map]
    simp only [List.map_cons, List.flatMap_cons, List.map_map]
    rw [ih]
    simp [Function.comp_def]

theorem fanIndices_eq_specFanFlat (vs : List Nat) :
    fanIndices vs = specFanFlat vs := by
  cases vs with
  | nil => simp [fanIndices, specFanFlat, specFanTriangles]
  | cons v0 rest =>
    show fanFrom v0 rest = _
    rw [fanFrom_eq_spec v0 rest]
    simp only [specFanFlat, specFanTriangles, List.length_cons]
    rw [show rest.length + 1 - 2 = rest.length - 1 by omega]
    congr 1

/-! ### The growth relation between parser states -/

/-- What any successful parsing step guarantees about the evolution of the
dedup map and the vertex list: existing map entries persist, the vertex list
only grows, and it grows by exactly as many entries as the key set does. -/
structure StepOk (st st1 : LoadState) : Prop where
  vertex_le : st.vertex.length ≤ st1.vertex.length
  lookup_persist : ∀ c j, st.uniqueVertex.lookup c = some j →
    st1.uniqueVertex.lookup c = some j
  card_rel : st1.vertex.length + (keysF st).card =
    st.vertex.length + (keysF st1).card

theorem stepOk_refl (st : LoadState) : StepOk st st :=
  ⟨le_refl _, fun _ _ h => h, Eq.refl _⟩

theorem StepOk.trans {s t u : LoadState} (h1 : StepOk s t) (h2 : StepOk t u) :
    StepOk s u := by
  refine ⟨le_trans h1.vertex_le h2.vertex_le,
    fun c j hc => h2.lookup_persist c j (h1.lookup_persist c j hc), ?_⟩
  have e1 := h1.card_rel
  have e2 := h2.card_rel
  omega

theorem StepOk.isSome_persist {st st1 : LoadState} (h : StepOk st st1)
    {c : String} (hc : (st.uniqueVertex.lookup c).isSome = true) :
    (st1.uniqueVertex.lookup c).isSome = true := by
  obtain ⟨j, hj⟩ := Option.isSome_iff_exists.mp hc
  rw [h.lookup_persist c j hj]
  rfl

/-- The inductive invariant of the loader: every mapped index and every
emitted index points inside the vertex list, mapped indices are pairwise
distinct, and indices come in triples. -/
structure Inv (st : LoadState) : Prop where
  mapBound : ∀ e ∈ st.uniqueVertex, e.2 < st.vertex.length
  valsNodup : (st.uniqueVertex.map Prod.snd).Nodup
  idxBound : ∀ i ∈ st.index, i < st.vertex.length
  idxLen : st.index.length % 3 = 0

theorem inv_initState : Inv initState := by
  refine ⟨?_, ?_, ?_, ?_⟩ <;> simp [initState]

/-! ### Step facts for `resolveChunk` and `resolveChunks` -/

theorem resolveChunk_step {st st1 : LoadState} {c : String} {i : Nat}
    (h : resolveChunk st c = .ok (st1, i)) :
    StepOk st st1 ∧
    st1.tempPos = st.tempPos ∧ st1.tempUV = st.tempUV ∧
    st1.tempNrm = st.tempNrm ∧ st1.index = st.index ∧
    st1.uniqueVertex.lookup c = some i ∧
    keysF st1 = insert c (keysF st) := by
  rcases resolveChunk_ok_cases h with ⟨hl, h1⟩ | ⟨hl, _, hi, h1⟩
  · rw [h1]
    have hmem : c ∈ keysF st := by
      rw [keysF, List.mem_toFinset, ← lookup_isSome_iff, hl]
      rfl
    exact ⟨stepOk_refl st, rfl, rfl, rfl, rfl, hl,
      (Finset.insert_eq_self.mpr hmem).symm⟩
  · subst h1
    subst hi
    have hnotmem : c ∉ keysF st := by
      rw [keysF, List.mem_toFinset, ← lookup_isSome_iff, hl]
      simp
    have hkeys : keysF { st with
        vertex := st.vertex ++ [chunkVertex st (parseChunk c)],
        uniqueVertex := (c, st.vertex.length) :: st.uniqueVertex } =
        insert c (keysF st) := by
      simp [keysF]
    refine ⟨⟨?_, ?_, ?_⟩, rfl, rfl, rfl, rfl, ?_, hkeys⟩
    · simp
    · intro c2 j hc2
      have hne : c2 ≠ c := by
        intro he
        rw [he, hl] at hc2
        exact Option.noConfusion hc2
      simpa [lookup_cons, hne] using hc2
    · rw [hkeys, Finset.card_insert_of_not_mem hnotmem]
      simp only [List.length_append, List.length_singleton]
      omega
    · simp [lookup_cons]

theorem resolveChunk_inv {st st1 : LoadState} {c : String} {i : Nat}
    (h : resolveChunk st c = .ok (st1, i)) (hv : Inv st) :
    Inv st1 ∧ i < st1.vertex.length := by
  rcases resolveChunk_ok_cases h with ⟨hl, h1⟩ | ⟨hl, _, hi, h1⟩
  · rw [h1]
    exact ⟨hv, hv.mapBound _ (lookup_mem hl)⟩
  · subst h1
    subst hi
    have hlen : (st.vertex ++ [chunkVertex st (parseChunk c)]).length =
        st.vertex.length + 1 := by simp
    refine ⟨⟨?_, ?_, ?_, ?_⟩, ?_⟩
    · rintro e he
      rcases List.mem_cons.mp he with rfl | he
      · simp [hlen]
      · have := hv.mapBound e he
        simp only [hlen]
        omega
    · simp only [List.map_cons]
      refine List.Nodup.cons ?_ hv.valsNodup
      intro hmem
      obtain ⟨e, he, hei⟩ := List.mem_map.mp hmem
      have := hv.mapBound e he
      omega
    · intro j hj
      have := hv.idxBound j hj
      simp only [hlen]
      omega
    · exact hv.idxLen
    · simp only [hlen]
      omega

theorem resolveChunks_step :
    ∀ (cs : List String) (st st1 : LoadState) (is : List Nat),
      resolveChunks st cs = .ok (st1, is) →
      StepOk st st1 ∧
      st1.tempPos = st.tempPos ∧ st1.tempUV = st.tempUV ∧
      st1.tempNrm = st.tempNrm ∧ st1.index = st.index ∧
      (∀ c ∈ cs, (st1.uniqueVertex.lookup c).isSome = true) ∧
      keysF st1 = keysF st ∪ cs.toFinset ∧
      is.length = cs.length
  | [], st, st1, is, h => by
    simp only [resolveChunks, Except.ok.injEq, Prod.mk.injEq] at h
    obtain ⟨rfl, rfl⟩ := h
    exact ⟨stepOk_refl st, rfl, rfl, rfl, rfl, by simp, by simp, rfl⟩
  | c :: cs, st, st1, is, h => by
    simp only [resolveChunks] at h
    rcases hc : resolveChunk st c with e | p
    · simp [hc] at h
    · obtain ⟨stm, i⟩ := p
      simp only [hc] at h
      rcases hcs : resolveChunks stm cs with e | q
      · simp [hcs] at h
      · obtain ⟨st2, is2⟩ := q
        simp only [hcs, Except.ok.injEq, Prod.mk.injEq] at h
        obtain ⟨rfl, rfl⟩ := h
        obtain ⟨s1, hP, hU, hN, hI, hlk, hK⟩ := resolveChunk_step hc
        obtain ⟨s2, hP2, hU2, hN2, hI2, hmem2, hK2, hlen2⟩ :=
          resolveChunks_step cs stm st2 is2 hcs
        refine ⟨s1.trans s2, by rw [hP2, hP], by rw [hU2, hU],
          by rw [hN2, hN], by rw [hI2, hI], ?_, ?_, by simp [hlen2]⟩
        · intro c2 hc2
          rcases List.mem_cons.mp hc2 with rfl | hc2
          · exact s2.isSome_persist (by rw [hlk]; rfl)
          · exact hmem2 c2 hc2
        · rw [hK2, hK, List.toFinset_cons, Finset.insert_union,
            Finset.union_insert]

theorem resolveChunks_inv :
    ∀ (cs : List String) (st st1 : LoadState) (is : List Nat),
      resolveChunks st cs = .ok (st1, is) → Inv st →
      Inv st1 ∧ ∀ i ∈ is, i < st1.vertex.length
  | [], st, st1, is, h, hv => by
    simp only [resolveChunks, Except.ok.injEq, Prod.mk.injEq] at h
    obtain ⟨rfl, rfl⟩ := h
    exact ⟨hv, by simp⟩
  | c :: cs, st, st1, is, h, hv => by
    simp only [resolveChunks] at h
    rcases hc : resolveChunk st c with e | p
    · simp [hc] at h
    · obtain ⟨stm, i⟩ := p
      simp only [hc] at h
      rcases hcs : resolveChunks stm cs with e | q
      · simp [hcs] at h
      · obtain ⟨st2, is2⟩ := q
        simp only [hcs, Except.ok.injEq, Prod.mk.injEq] at h
        obtain ⟨rfl, rfl⟩ := h
        obtain ⟨hvm, hib⟩ := resolveChunk_inv hc hv
        obtain ⟨hv2, hib2⟩ := resolveChunks_inv cs stm st2 is2 hcs hvm
        obtain ⟨s2, -⟩ := resolveChunks_step cs stm st2 is2 hcs
        refine ⟨hv2, ?_⟩
        intro j hj
        rcases List.mem_cons.mp hj with rfl | hj
        · exact lt_of_lt_of_le hib s2.vertex_le
        · exact hib2 j hj

/-! ### Line-level lemmas -/

theorem processLine_skip {st : LoadState} {l : String}
    (h : l = "" ∨ l.front = '#') : processLine st l = .ok st := by
  simp [processLine, h]

/-- On a face line, `processLine` is exactly the token resolution followed by
the degenerate-face check and the fan emit. -/
theorem processLine_face {st : LoadState} {l : String}
    (hns : ¬(l = "" ∨ l.front = '#'))
    (hf : (wordsOf l).headD "" = "f") :
    processLine st l =
      match resolveChunks st (wordsOf l).tail with
      | .error e => .error e
      | .ok (st1, faceIdx) =>
        if faceIdx.length < 3 then .ok st1
        else .ok { st1 with index := st1.index ++ fanIndices faceIdx } := by
  have hnv : ¬((wordsOf l).headD "" = "v") := by rw [hf]; decide
  have hnvt : ¬((wordsOf l).headD "" = "vt") := by rw [hf]; decide
  have hnvn : ¬((wordsOf l).headD "" = "vn") := by rw [hf]; decide
  simp only [processLine, if_neg hns, if_neg hnv, if_neg hnvt, if_neg hnvn,
    if_pos hf]

theorem stepOk_indexUpdate (stm : LoadState) (X : List Nat) :
    StepOk stm { stm with index := X } :=
  ⟨le_refl _, fun _ _ h => h, Eq.refl _⟩

theorem lineTokens_of_tag {l : String} (hns : ¬(l = "" ∨ l.front = '#'))
    (hne : ¬((wordsOf l).headD "" = "f")) : lineTokens l = [] := by
  simp only [lineTokens, if_neg hns, if_neg hne]

/-- Everything one successful line preserves or contributes: the growth
relation, registration of the line's face tokens, the key-set equation, and
the invariant. -/
theorem processLine_full {st st1 : LoadState} {l : String}
    (h : processLine st l = .ok st1) :
    StepOk st st1 ∧
    (∀ c ∈ lineTokens l, (st1.uniqueVertex.lookup c).isSome = true) ∧
    keysF st1 = keysF st ∪ (lineTokens l).toFinset ∧
    (Inv st → Inv st1) := by
  by_cases hns : l = "" ∨ l.front = '#'
  · rw [processLine_skip hns] at h
    simp only [Except.ok.injEq] at h
    rw [← h]
    have ht : lineTokens l = [] := by simp only [lineTokens, if_pos hns]
    rw [ht]
    exact ⟨stepOk_refl st, by simp, by simp, fun hv => hv⟩
  · simp only [processLine, if_neg hns] at h
    by_cases hv : (wordsOf l).headD "" = "v"
    · rw [if_pos hv] at h
      simp only [Except.ok.injEq] at h
      rw [← h, lineTokens_of_tag hns (by rw [hv]; decide)]
      exact ⟨⟨le_refl _, fun _ _ hh => hh, Eq.refl _⟩, by simp, by simp [keysF],
        fun hi => ⟨hi.mapBound, hi.valsNodup, hi.idxBound, hi.idxLen⟩⟩
    · rw [if_neg hv] at h
      by_cases hvt : (wordsOf l).headD "" = "vt"
      · rw [if_pos hvt] at h
        simp only [Except.ok.injEq] at h
        rw [← h, lineTokens_of_tag hns (by rw [hvt]; decide)]
        exact ⟨⟨le_refl _, fun _ _ hh => hh, Eq.refl _⟩, by simp, by simp [keysF],
          fun hi => ⟨hi.mapBound, hi.valsNodup, hi.idxBound, hi.idxLen⟩⟩
      · rw [if_neg hvt] at h
        by_cases hvn : (wordsOf l).headD "" = "vn"
        · rw [if_pos hvn] at h
          simp only [Except.ok.injEq] at h
          rw [← h, lineTokens_of_tag hns (by rw [hvn]; decide)]
          exact ⟨⟨le_refl _, fun _ _ hh => hh, Eq.refl _⟩, by simp, by simp [keysF],
            fun hi => ⟨hi.mapBound, hi.valsNodup, hi.idxBound, hi.idxLen⟩⟩
        · rw [if_neg hvn] at h
          by_cases hf : (wordsOf l).headD "" = "f"
          · rw [if_pos hf] at h
            have htok : lineTokens l = (wordsOf l).tail := by
              simp only [lineTokens, if_neg hns, if_pos hf]
            rcases hr : resolveChunks st (wordsOf l).tail with e | q
            · simp [hr] at h
            · obtain ⟨stm, faceIdx⟩ := q
              simp only [hr] at h
              obtain ⟨s1, -, -, -, hI, hreg, hK, -⟩ :=
                resolveChunks_step _ _ _ _ hr
              by_cases hlen : faceIdx.length < 3
              · rw [if_pos hlen] at h
                simp only [Except.ok.injEq] at h
                rw [← h, htok]
                exact ⟨s1, hreg, hK, fun hi =>
                  (resolveChunks_inv _ _ _ _ hr hi).1⟩
              · rw [if_neg hlen] at h
                simp only [Except.ok.injEq] at h
                rw [← h, htok]
                refine ⟨s1.trans (stepOk_indexUpdate stm _), hreg, hK, ?_⟩
                intro hi
                obtain ⟨hvm, hib⟩ := resolveChunks_inv _ _ _ _ hr hi
                refine ⟨hvm.mapBound, hvm.valsNodup, ?_, ?_⟩
                · intro j hj
                  rcases List.mem_append.mp hj with hj | hj
                  · exact hvm.idxBound j hj
                  · exact hib j (fanIndices_mem hj)
                · have h3 := fanIndices_length faceIdx
                  have h0 := hvm.idxLen
                  simp only [List.length_append]
                  omega
          · rw [if_neg hf] at h
            simp only [Except.ok.injEq] at h
            rw [← h, lineTokens_of_tag hns hf]
            exact ⟨stepOk_refl st, by simp, by simp, fun hi => hi⟩

/-- A fatal line aborts the whole loop at once: later lines are ignored. -/
theorem processLines_error_cons {st e : LoadState} {l : String}
    (rest : List String) (h : processLine st l = .error e) :
    processLines st (l :: rest) = .error e := by
  simp [processLines, h]

/-- Folding `processLine_full` over the whole file. -/
theorem processLines_full :
    ∀ (lines : List String) (st st1 : LoadState),
      processLines st lines = .ok st1 →
      StepOk st st1 ∧
      keysF st1 = keysF st ∪ (faceTokens lines).toFinset ∧
      (Inv st → Inv st1)
  | [], st, st1, h => by
    simp only [processLines, Except.ok.injEq] at h
    rw [← h]
    exact ⟨stepOk_refl st, by simp [faceTokens], fun hv => hv⟩
  | l :: ls, st, st1, h => by
    simp only [processLines] at h
    rcases hl : processLine st l with e | stm
    · simp [hl] at h
    · simp only [hl] at h
      obtain ⟨s1, -, hK1, hi1⟩ := processLine_full hl
      obtain ⟨s2, hK2, hi2⟩ := processLines_full ls stm st1 h
      refine ⟨s1.trans s2, ?_, fun hv => hi2 (hi1 hv)⟩
      rw [hK2, hK1]
      simp only [faceTokens, List.flatMap_cons, List.toFinset_append]
      rw [Finset.union_assoc]

/-! ### Remaining helper lemmas -/

/-- Injectivity of the dedup map when its values are pairwise distinct. -/
theorem map_snd_nodup_inj {l : List (String × Nat)}
    (h : (l.map Prod.snd).Nodup) {a c : String} {b : Nat}
    (ha : (a, b) ∈ l) (hc : (c, b) ∈ l) : a = c := by
  induction l with
  | nil => cases ha
  | cons e es ih =>
    simp only [List.map_cons, List.nodup_cons] at h
    rcases List.mem_cons.mp ha with h1 | h1 <;>
      rcases List.mem_cons.mp hc with h2 | h2
    · rw [← h1] at h2
      exact congrArg Prod.fst h2.symm
    · exact absurd (List.mem_map.mpr ⟨(c, b), h2, by rw [← h1]⟩) h.1
    · exact absurd (List.mem_map.mpr ⟨(a, b), h1, by rw [← h2]⟩) h.1
    · exact ih h.2 h1 h2

/-- A file of blank/comment lines is a no-op for the parser. -/
theorem processLines_skip_all :
    ∀ (lines : List String) (st : LoadState),
      (∀ l ∈ lines, l = "" ∨ l.front = '#') →
      processLines st lines = .ok st
  | [], st, _ => rfl
  | l :: ls, st, h => by
    simp only [processLines, processLine_skip (h l (List.mem_cons_self _ _))]
    exact processLines_skip_all ls st fun x hx => h x (List.mem_cons_of_mem _ hx)

theorem getlineSlash_of_ne_nil {cs : List Char} (h : cs ≠ []) :
    getlineSlash cs =
      some (cs.takeWhile (· != '/'), (cs.dropWhile (· != '/')).drop 1) := by
  cases cs with
  | nil => exact absurd rfl h
  | cons x xs => rfl

theorem dropWhile_no_slash {a : List Char} (h : ('/' : Char) ∉ a)
    (b : List Char) :
    (a ++ '/' :: b).dropWhile (· != '/') = '/' :: b := by
  induction a with
  | nil => simp [List.dropWhile]
  | cons x xs ih =>
    have hx : (x != '/') = true := by
      simp only [bne_iff_ne, ne_eq]
      exact fun he => h (he ▸ List.mem_cons_self _ _)
    simp only [List.cons_append, List.dropWhile_cons, hx, if_true]
    exact ih fun hm => h (List.mem_cons_of_mem _ hm)

theorem dropWhile_all_no_slash {a : List Char} (h : ('/' : Char) ∉ a) :
    a.dropWhile (· != '/') = [] := by
  induction a with
  | nil => rfl
  | cons x xs ih =>
    have hx : (x != '/') = true := by
      simp only [bne_iff_ne, ne_eq]
      exact fun he => h (he ▸ List.mem_cons_self _ _)
    simp only [List.dropWhile_cons, hx, if_true]
    exact ih fun hm => h (List.mem_cons_of_mem _ hm)

/-- A face line whose tokens all resolve but number fewer than 3 is accepted
with the post-resolution state (no indices emitted). -/
theorem processLine_face_short {st st1 : LoadState} {l : String}
    {chunks : List String} {faceIdx : List Nat}
    (hns : ¬(l = "" ∨ l.front = '#'))
    (hw : wordsOf l = "f" :: chunks)
    (hr : resolveChunks st chunks = .ok (st1, faceIdx))
    (hlen : faceIdx.length < 3) :
    processLine st l = .ok st1 := by
  have hf : (wordsOf l).headD "" = "f" := by rw [hw]; rfl
  have htail : (wordsOf l).tail = chunks := by rw [hw]; rfl
  rw [processLine_face hns hf, htail, hr]
  simp [hlen]

/-- A face line with at least 3 resolved vertices appends exactly the fan
indices. -/
theorem processLine_face_long {st st1 : LoadState} {l : String}
    {chunks : List String} {faceIdx : List Nat}
    (hns : ¬(l = "" ∨ l.front = '#'))
    (hw : wordsOf l = "f" :: chunks)
    (hr : resolveChunks st chunks = .ok (st1, faceIdx))
    (hlen : ¬faceIdx.length < 3) :
    processLine st l =
      .ok { st1 with index := st1.index ++ fanIndices faceIdx } := by
  have hf : (wordsOf l).headD "" = "f" := by rw [hw]; rfl
  have htail : (wordsOf l).tail = chunks := by rw [hw]; rfl
  rw [processLine_face hns hf, htail, hr]
  simp [hlen]

/-! ### Reduction of `loadModel` on the three outcomes -/

theorem loadModel_error_eq {f : ObjFile} {m : MeshComponent} {st : LoadState}
    (hfe : f.fileExistsA = true) (hio : f.isOpen = true)
    (herr : processLines initState f.lines = .error st) :
    loadModel f m = (false, storeMesh m st 0 0) := by
  simp [loadModel, hfe, hio, herr]

theorem loadModel_ok_eq {f : ObjFile} {m : MeshComponent} {st : LoadState}
    (hfe : f.fileExistsA = true) (hio : f.isOpen = true)
    (hok : processLines initState f.lines = .ok st) :
    loadModel f m =
      if (st.vertex.length : Int) = 0 ∨ (st.index.length : Int) = 0 then
        (false, storeMesh m st st.vertex.length st.index.length)
      else (true, storeMesh m st st.vertex.length st.index.length) := by
  simp [loadModel, hfe, hio, hok]

/-! ### Concrete inputs used as witnesses -/

/-- A caller mesh that starts out empty. -/
def emptyMesh : MeshComponent := ⟨"", [], [], 0, 0⟩

/-- A file whose second face token references position 2 when only one
position was declared. -/
def badPosFile : ObjFile := ⟨true, true, ["v 0 0 0", "f 1 2 3"]⟩

/-- The parser state at the moment `badPosFile` aborts: the first token has
already pushed a vertex. -/
def badPosState : LoadState :=
  ⟨[⟨0, 0, 0⟩], [], [], [("1", 0)], [⟨⟨0, 0, 0⟩, ⟨0, 0⟩⟩], []⟩

/-- The single-quad file of the specification's round-trip property. -/
def quadFile : ObjFile :=
  ⟨true, true,
   ["v 0 0 0", "v 1 0 0", "v 1 1 0", "v 0 1 0",
    "vt 0 0", "vt 1 0", "vt 1 1", "vt 0 1",
    "f 1/1 2/2 3/3 4/4"]⟩

/-- The parser state of `quadFile` just before its face line. -/
def quadPreState : LoadState :=
  ⟨[⟨0, 0, 0⟩, ⟨1, 0, 0⟩, ⟨1, 1, 0⟩, ⟨0, 1, 0⟩],
   [⟨0, 0⟩, ⟨1, 0⟩, ⟨1, 1⟩, ⟨0, 1⟩], [], [], [], []⟩

/-- The parser state of `quadFile` after resolving the face tokens but
before emitting indices. -/
def quadPostState : LoadState :=
  ⟨[⟨0, 0, 0⟩, ⟨1, 0, 0⟩, ⟨1, 1, 0⟩, ⟨0, 1, 0⟩],
   [⟨0, 0⟩, ⟨1, 0⟩, ⟨1, 1⟩, ⟨0, 1⟩], [],
   [("4/4", 3), ("3/3", 2), ("2/2", 1), ("1/1", 0)],
   [⟨⟨0, 0, 0⟩, ⟨0, 0⟩⟩, ⟨⟨1, 0, 0⟩, ⟨1, 0⟩⟩,
    ⟨⟨1, 1, 0⟩, ⟨1, 1⟩⟩, ⟨⟨0, 1, 0⟩, ⟨0, 1⟩⟩], []⟩

/-- The mesh `quadFile` must produce. -/
def quadMesh : MeshComponent :=
  ⟨"",
   [⟨⟨0, 0, 0⟩, ⟨0, 0⟩⟩, ⟨⟨1, 0, 0⟩, ⟨1, 0⟩⟩,
    ⟨⟨1, 1, 0⟩, ⟨1, 1⟩⟩, ⟨⟨0, 1, 0⟩, ⟨0, 1⟩⟩],
   [0, 1, 2, 0, 2, 3], 4, 6⟩

/-- A file that repeats a whole face verbatim. -/
def dedupLines : List String :=
  ["v 0 0 0", "v 1 0 0", "v 0 1 0", "f 1 2 3", "f 1 2 3"]

/-- The final parser state of `dedupLines`: 3 vertices despite 6 tokens. -/
def dedupState : LoadState :=
  ⟨[⟨0, 0, 0⟩, ⟨1, 0, 0⟩, ⟨0, 1, 0⟩], [], [],
   [("3", 2), ("2", 1), ("1", 0)],
   [⟨⟨0, 0, 0⟩, ⟨0, 0⟩⟩, ⟨⟨1, 0, 0⟩, ⟨0, 0⟩⟩, ⟨⟨0, 1, 0⟩, ⟨0, 0⟩⟩],
   [0, 1, 2, 0, 1, 2]⟩

/-- A file of comments and blank lines only. -/
def commentFile : ObjFile := ⟨true, true, ["# a comment", "", "# another"]⟩

/-- A minimal successfully loading file. -/
def triFile : ObjFile :=
  ⟨true, true, ["v 0 0 0", "v 1 0 0", "v 0 1 0", "f 1 2 3"]⟩

/-- The mesh `triFile` produces. -/
def triMesh : MeshComponent :=
  ⟨"",
   [⟨⟨0, 0, 0⟩, ⟨0, 0⟩⟩, ⟨⟨1, 0, 0⟩, ⟨0, 0⟩⟩, ⟨⟨0, 1, 0⟩, ⟨0, 0⟩⟩],
   [0, 1, 2], 3, 3⟩

/-- A file with a 2-token face followed by a valid triangle. -/
def skipFile : ObjFile :=
  ⟨true, true, ["v 0 0 0", "v 1 0 0", "v 0 1 0", "f 1 2", "f 1 2 3"]⟩

/-- The parser state of `skipFile` before its 2-token face. -/
def skipPreState : LoadState :=
  ⟨[⟨0, 0, 0⟩, ⟨1, 0, 0⟩, ⟨0, 1, 0⟩], [], [], [], [], []⟩

/-- The parser state of `skipFile` after the 2-token face: two vertices
registered, no indices. -/
def skipMidState : LoadState :=
  ⟨[⟨0, 0, 0⟩, ⟨1, 0, 0⟩, ⟨0, 1, 0⟩], [], [],
   [("2", 1), ("1", 0)],
   [⟨⟨0, 0, 0⟩, ⟨0, 0⟩⟩, ⟨⟨1, 0, 0⟩, ⟨0, 0⟩⟩], []⟩

/-- A state with one accumulated position and no texture coordinates. -/
def onePosState : LoadState := ⟨[⟨0, 0, 0⟩], [], [], [], [], []⟩

/-- A path that does not resolve to an existing regular file. -/
def missingFile : ObjFile := ⟨false, true, ["v 0 0 0"]⟩

/-- An existing file whose stream fails to open. -/
def unopenedFile : ObjFile := ⟨true, false, ["v 0 0 0"]⟩

/-- A caller mesh holding pre-existing data that must survive an early
failure. -/
def keepMesh : MeshComponent := ⟨"keep", [⟨⟨1, 2, 3⟩, ⟨4, 5⟩⟩], [7], 9, 9⟩

/-! ### The claims -/

/-- C1 (amended): a face token whose parsed 0-based position index is
negative or not below the accumulated position count is exactly the fatal
token condition; it aborts the line loop at once (later lines are never
processed) and makes `loadModel` return `false` with the mesh counters left
at the cleared value 0 — but the mesh's vertex/index vectors retain whatever
had been pushed before the abort (they are not cleared again). -/
theorem C1_bad_position_index_aborts :
    (∀ (st e : LoadState) (c : String),
      resolveChunk st c = .error e ↔
        e = st ∧ st.uniqueVertex.lookup c = none ∧
          ((parseChunk c).posIdx < 0 ∨
            (st.tempPos.length : Int) ≤ (parseChunk c).posIdx)) ∧
    (∀ (st e : LoadState) (l : String) (rest : List String),
      processLine st l = .error e →
      processLines st (l :: rest) = .error e) ∧
    (∀ (f : ObjFile) (m : MeshComponent) (st : LoadState),
      f.fileExistsA = true → f.isOpen = true →
      processLines initState f.lines = .error st →
      loadModel f m = (false, storeMesh m st 0 0)) :=
  ⟨fun _ _ _ => resolveChunk_error_iff,
   fun _ _ _ rest h => processLines_error_cons rest h,
   fun _ _ _ hfe hio herr => loadModel_error_eq hfe hio herr⟩

/-- C1 (counterexample): on `badPosFile` the load aborts with `false`, yet
the caller's `MeshComponent` holds a partially-built vertex list — refuting
the claim that no partial vertex data remains. -/
theorem C1_counterexample_partial_data :
    (loadModel badPosFile emptyMesh).1 = false ∧
    (loadModel badPosFile emptyMesh).2.m_vertex ≠ [] := by
  decide

/-- Witness for C1 at `badPosFile`. -/
theorem C1_witness :
    badPosFile.fileExistsA = true ∧ badPosFile.isOpen = true ∧
    processLines initState badPosFile.lines = .error badPosState ∧
    loadModel badPosFile emptyMesh =
      (false, storeMesh emptyMesh badPosState 0 0) :=
  ⟨rfl, rfl, by decide,
   C1_bad_position_index_aborts.2.2 badPosFile emptyMesh badPosState
     rfl rfl (by decide)⟩

/-- C2: every face line resolving to `[v0, ..., vn]` with at least 3
vertices appends exactly the fan triangles
`(v0,v1,v2), (v0,v2,v3), ..., (v0,v(n-1),vn)` in that order, and the
single-quad file yields exactly 4 vertices and the 6 indices
`[0,1,2,0,2,3]`. -/
theorem C2_fan_triangulation :
    (∀ (st st1 : LoadState) (l : String) (chunks : List String)
        (faceIdx : List Nat),
      ¬(l = "" ∨ l.front = '#') →
      wordsOf l = "f" :: chunks →
      resolveChunks st chunks = .ok (st1, faceIdx) →
      3 ≤ faceIdx.length →
      processLine st l =
        .ok { st1 with index := st1.index ++ specFanFlat faceIdx }) ∧
    loadModel quadFile emptyMesh = (true, quadMesh) := by
  constructor
  · intro st st1 l chunks faceIdx hns hw hr hlen
    rw [processLine_face_long hns hw hr (by omega), fanIndices_eq_specFanFlat]
  · decide

/-- Witness for C2 at the quad face line. -/
theorem C2_witness :
    resolveChunks quadPreState ["1/1", "2/2", "3/3", "4/4"] =
      .ok (quadPostState, [0, 1, 2, 3]) ∧
    processLine quadPreState "f 1/1 2/2 3/3 4/4" =
      .ok { quadPostState with
             index := quadPostState.index ++ specFanFlat [0, 1, 2, 3] } :=
  ⟨by decide,
   C2_fan_triangulation.1 quadPreState quadPostState "f 1/1 2/2 3/3 4/4"
     ["1/1", "2/2", "3/3", "4/4"] [0, 1, 2, 3] (by decide) (by decide)
     (by decide) (by decide)⟩

/-- C3: a mapped token resolves to its mapped index without changing the
state; a fresh token appends exactly one vertex at the next index and is
registered at it; map entries persist across all later lines; two different
token strings never map to the same vertex index; and after a fatal-error
free run from the initial state the vertex count equals the number of
distinct face-token strings of the file. -/
theorem C3_token_deduplication :
    (∀ (st : LoadState) (c : String) (i : Nat),
      st.uniqueVertex.lookup c = some i → resolveChunk st c = .ok (st, i)) ∧
    (∀ (st st1 : LoadState) (c : String) (i : Nat),
      resolveChunk st c = .ok (st1, i) → st.uniqueVertex.lookup c = none →
      st1.vertex.length = st.vertex.length + 1 ∧ i = st.vertex.length ∧
      st1.uniqueVertex.lookup c = some i) ∧
    (∀ (lines : List String) (st st1 : LoadState) (c : String) (i : Nat),
      processLines st lines = .ok st1 →
      st.uniqueVertex.lookup c = some i →
      st1.uniqueVertex.lookup c = some i) ∧
    (∀ (lines : List String) (st1 : LoadState) (c1 c2 : String) (i : Nat),
      processLines initState lines = .ok st1 →
      st1.uniqueVertex.lookup c1 = some i →
      st1.uniqueVertex.lookup c2 = some i → c1 = c2) ∧
    (∀ (lines : List String) (st1 : LoadState),
      processLines initState lines = .ok st1 →
      st1.vertex.length = (faceTokens lines).toFinset.card) := by
  refine ⟨fun _ _ _ h => resolveChunk_found h, ?_, ?_, ?_, ?_⟩
  · intro st st1 c i h hnone
    rcases resolveChunk_ok_cases h with ⟨hl, h1⟩ | ⟨hl, hp, hi, h1⟩
    · rw [hnone] at hl
      exact Option.noConfusion hl
    · subst h1
      subst hi
      exact ⟨by simp, rfl, by simp [lookup_cons]⟩
  · intro lines st st1 c i h hc
    exact (processLines_full lines st st1 h).1.lookup_persist c i hc
  · intro lines st1 c1 c2 i h h1 h2
    have hv := (processLines_full lines initState st1 h).2.2 inv_initState
    exact map_snd_nodup_inj hv.valsNodup (lookup_mem h1) (lookup_mem h2)
  · intro lines st1 h
    obtain ⟨s, hK, -⟩ := processLines_full lines initState st1 h
    have h0 : keysF initState = ∅ := by simp [keysF, initState]
    have hc := s.card_rel
    rw [h0, Finset.empty_union] at hK
    rw [h0, hK] at hc
    simp only [initState, Finset.card_empty, List.length_nil] at hc
    omega

/-- Witness for C3 at `dedupLines` (6 tokens, 3 distinct, 3 vertices). -/
theorem C3_witness :
    processLines initState dedupLines = .ok dedupState ∧
    dedupState.vertex.length = (faceTokens dedupLines).toFinset.card :=
  ⟨by decide,
   C3_token_deduplication.2.2.2.2 dedupLines dedupState (by decide)⟩

/-- C4: after an error-free pass over all lines, the load fails exactly when
the vertex list or the index list ended up empty; in particular a file of
comments and blank lines only fails with an untouched-but-cleared mesh. -/
theorem C4_empty_mesh_failure :
    (∀ (f : ObjFile) (m : MeshComponent) (st : LoadState),
      f.fileExistsA = true → f.isOpen = true →
      processLines initState f.lines = .ok st →
      ((loadModel f m).1 = false ↔ (st.vertex = [] ∨ st.index = []))) ∧
    (∀ (f : ObjFile) (m : MeshComponent),
      f.fileExistsA = true → f.isOpen = true →
      (∀ l ∈ f.lines, l = "" ∨ l.front = '#') →
      loadModel f m = (false, storeMesh m initState 0 0)) := by
  constructor
  · intro f m st hfe hio hok
    rw [loadModel_ok_eq hfe hio hok]
    by_cases hc : (st.vertex.length : Int) = 0 ∨ (st.index.length : Int) = 0
    · rw [if_pos hc]
      constructor
      · intro _
        rcases hc with hc | hc
        · exact Or.inl (List.length_eq_zero.mp (by exact_mod_cast hc))
        · exact Or.inr (List.length_eq_zero.mp (by exact_mod_cast hc))
      · intro _
        rfl
    · rw [if_neg hc]
      constructor
      · intro hfalse
        exact absurd hfalse (by simp)
      · intro hor
        exfalso
        apply hc
        rcases hor with hv | hv
        · exact Or.inl (by simp [hv])
        · exact Or.inr (by simp [hv])
  · intro f m hfe hio hall
    have hok : processLines initState f.lines = .ok initState :=
      processLines_skip_all f.lines initState hall
    rw [loadModel_ok_eq hfe hio hok, if_pos (Or.inl (by simp [initState]))]
    rfl

/-- Witness for C4 at `commentFile`. -/
theorem C4_witness :
    commentFile.fileExistsA = true ∧ commentFile.isOpen = true ∧
    (∀ l ∈ commentFile.lines, l = "" ∨ l.front = '#') ∧
    loadModel commentFile emptyMesh = (false, storeMesh emptyMesh initState 0 0) :=
  ⟨rfl, rfl, by decide,
   C4_empty_mesh_failure.2 commentFile emptyMesh rfl rfl (by decide)⟩

/-- C5: on every successful load, every emitted index is strictly below the
vertex count, the index count is a multiple of 3, and the two counters hold
exactly the vertex/index counts. -/
theorem C5_index_validity :
    ∀ (f : ObjFile) (m outM : MeshComponent),
      loadModel f m = (true, outM) →
      (∀ i ∈ outM.m_index, i < outM.m_vertex.length) ∧
      outM.m_index.length % 3 = 0 ∧
      outM.m_numVertex = (outM.m_vertex.length : Int) ∧
      outM.m_numIndex = (outM.m_index.length : Int) := by
  intro f m outM h
  rcases hfe : f.fileExistsA with _ | _
  · rw [show loadModel f m = (false, m) from by simp [loadModel, hfe]] at h
    exact absurd h (by simp)
  · rcases hio : f.isOpen with _ | _
    · rw [show loadModel f m = (false, m) from by simp [loadModel, hfe, hio]] at h
      exact absurd h (by simp)
    · rcases hok : processLines initState f.lines with st | st
      · rw [loadModel_error_eq hfe hio hok] at h
        exact absurd h (by simp)
      · rw [loadModel_ok_eq hfe hio hok] at h
        by_cases hc : (st.vertex.length : Int) = 0 ∨ (st.index.length : Int) = 0
        · rw [if_pos hc] at h
          exact absurd h (by simp)
        · rw [if_neg hc] at h
          simp only [Prod.mk.injEq, true_and] at h
          obtain ⟨-, -, hinv⟩ := processLines_full f.lines initState st hok
          have hv := hinv inv_initState
          rw [← h]
          exact ⟨fun i hi => hv.idxBound i hi, hv.idxLen, rfl, rfl⟩

/-- Witness for C5 at `triFile`. -/
theorem C5_witness :
    loadModel triFile emptyMesh = (true, triMesh) ∧
    (∀ i ∈ triMesh.m_index, i < triMesh.m_vertex.length) ∧
    triMesh.m_index.length % 3 = 0 :=
  ⟨by decide,
   (C5_index_validity triFile emptyMesh triMesh (by decide)).1,
   (C5_index_validity triFile emptyMesh triMesh (by decide)).2.1⟩

/-- C6: a face line whose tokens resolve to fewer than 3 vertices is
accepted without contributing any index, and processing simply continues
with the following lines; a file containing such a face can still load
successfully. -/
theorem C6_short_face_skipped :
    (∀ (st st1 : LoadState) (l : String) (chunks : List String)
        (faceIdx : List Nat) (rest : List String),
      ¬(l = "" ∨ l.front = '#') →
      wordsOf l = "f" :: chunks →
      resolveChunks st chunks = .ok (st1, faceIdx) →
      faceIdx.length < 3 →
      processLine st l = .ok st1 ∧ st1.index = st.index ∧
      processLines st (l :: rest) = processLines st1 rest) ∧
    (loadModel skipFile emptyMesh).1 = true := by
  constructor
  · intro st st1 l chunks faceIdx rest hns hw hr hlen
    have hpl := processLine_face_short hns hw hr hlen
    obtain ⟨-, -, -, -, hI, -⟩ := resolveChunks_step _ _ _ _ hr
    exact ⟨hpl, hI, by simp [processLines, hpl]⟩
  · decide

/-- Witness for C6 at the 2-token face of `skipFile`. -/
theorem C6_witness :
    processLines skipPreState ["f 1 2", "f 1 2 3"] =
      processLines skipMidState ["f 1 2 3"] ∧
    skipMidState.index = skipPreState.index :=
  ⟨(C6_short_face_skipped.1 skipPreState skipMidState "f 1 2" ["1", "2"]
      [0, 1] ["f 1 2 3"] (by decide) (by decide) (by decide) (by decide)).2.2,
   (C6_short_face_skipped.1 skipPreState skipMidState "f 1 2" ["1", "2"]
      [0, 1] ["f 1 2 3"] (by decide) (by decide) (by decide) (by decide)).2.1⟩

/-- C7: a fresh face token with a valid position index but a missing or
out-of-range texture-coordinate index resolves successfully (no failure on
that account) to a vertex whose texture coordinate is `(0,0)`; the `v` form
(no slash) and the `v//n` form both parse with `texIdx = -1` (missing). -/
theorem C7_texcoord_default :
    (∀ (st : LoadState) (c : String),
      st.uniqueVertex.lookup c = none →
      ¬((parseChunk c).posIdx < 0 ∨
          (st.tempPos.length : Int) ≤ (parseChunk c).posIdx) →
      ((parseChunk c).texIdx < 0 ∨
        (st.tempUV.length : Int) ≤ (parseChunk c).texIdx) →
      resolveChunk st c =
        .ok ({ st with
                vertex := st.vertex ++
                  [⟨st.tempPos.getD (parseChunk c).posIdx.toNat ⟨0, 0, 0⟩,
                    ⟨0, 0⟩⟩],
                uniqueVertex := (c, st.vertex.length) :: st.uniqueVertex },
             st.vertex.length)) ∧
    (∀ (cs : List Char), ('/' : Char) ∉ cs →
      (parseChunkCore cs).texIdx = -1) ∧
    (∀ (a b : List Char), ('/' : Char) ∉ a →
      (parseChunkCore (a ++ '/' :: '/' :: b)).texIdx = -1) := by
  refine ⟨?_, ?_, ?_⟩
  · intro st c hnone hp ht
    rw [resolveChunk_fresh_ok hnone hp]
    have htex : chunkTex st (parseChunk c) = ⟨0, 0⟩ := by
      simp only [chunkTex]
      rw [if_neg (by omega)]
    simp only [chunkVertex, htex]
  · intro cs h
    cases cs with
    | nil => rfl
    | cons x xs =>
      have hd := dropWhile_all_no_slash h
      simp [parseChunkCore, getlineSlash_of_ne_nil (List.cons_ne_nil x xs),
        hd, getlineSlash]
  · intro a b ha
    have hd := dropWhile_no_slash ha ('/' :: b)
    have hne : a ++ '/' :: '/' :: b ≠ [] := by simp
    simp only [parseChunkCore, getlineSlash_of_ne_nil hne, hd]
    rcases h3 : getlineSlash b with _ | p
    · simp [h3]
    · obtain ⟨third, r⟩ := p
      simp [h3]

/-- Witness for C7 at tokens `1` (form `v`) and `1//2` (form `v//n`). -/
theorem C7_witness :
    ((parseChunk "1").texIdx < 0 ∨
      ((onePosState.tempUV.length : Int) ≤ (parseChunk "1").texIdx)) ∧
    resolveChunk onePosState "1" =
      .ok ({ onePosState with
              vertex := onePosState.vertex ++
                [⟨onePosState.tempPos.getD (parseChunk "1").posIdx.toNat
                    ⟨0, 0, 0⟩, ⟨0, 0⟩⟩],
              uniqueVertex :=
                ("1", onePosState.vertex.length) :: onePosState.uniqueVertex },
           onePosState.vertex.length) ∧
    (parseChunkCore ['1']).texIdx = -1 ∧
    (parseChunkCore (['1'] ++ '/' :: '/' :: ['2'])).texIdx = -1 :=
  ⟨by decide,
   C7_texcoord_default.1 onePosState "1" (by decide) (by decide) (by decide),
   C7_texcoord_default.2.1 ['1'] (by decide),
   C7_texcoord_default.2.2 ['1'] ['2'] (by decide)⟩

/-- C8: when the existence check fails, `loadModel` returns `false` at once
and hands back the caller's mesh unchanged — no stream is consulted and no
fallback geometry is substituted, whatever the rest of the file state is. -/
theorem C8_missing_file_fails :
    ∀ (f : ObjFile) (m : MeshComponent),
      f.fileExistsA = false → loadModel f m = (false, m) := by
  intro f m h
  obtain ⟨fe, io, lines⟩ := f
  have hfe : fe = false := h
  subst hfe
  rfl

/-- Witness for C8 at `missingFile`. -/
theorem C8_witness :
    missingFile.fileExistsA = false ∧
    loadModel missingFile emptyMesh = (false, emptyMesh) :=
  ⟨rfl, C8_missing_file_fails missingFile emptyMesh rfl⟩

/-- C9: when the file is missing or the stream fails to open, `loadModel`
fails and the caller's `MeshComponent` is returned completely unchanged
(vertex list, index list and both counters), because the clear happens only
after a successful open. -/
theorem C9_mesh_untouched_on_early_failure :
    ∀ (f : ObjFile) (m : MeshComponent),
      f.fileExistsA = false ∨ f.isOpen = false →
      (loadModel f m).1 = false ∧ (loadModel f m).2 = m := by
  intro f m h
  obtain ⟨fe, io, lines⟩ := f
  rcases h with h | h
  · have hfe : fe = false := h
    subst hfe
    exact ⟨rfl, rfl⟩
  · have hio : io = false := h
    subst hio
    cases fe
    · exact ⟨rfl, rfl⟩
    · exact ⟨rfl, rfl⟩

/-- Witness for C9 at `unopenedFile` with pre-existing mesh data. -/
theorem C9_witness :
    (unopenedFile.fileExistsA = false ∨ unopenedFile.isOpen = false) ∧
    (loadModel unopenedFile keepMesh).1 = false ∧
    (loadModel unopenedFile keepMesh).2 = keepMesh :=
  ⟨Or.inr rfl,
   (C9_mesh_untouched_on_early_failure unopenedFile keepMesh (Or.inr rfl)).1,
   (C9_mesh_untouched_on_early_failure unopenedFile keepMesh (Or.inr rfl)).2⟩

/-- C10: a face line with fewer than 3 tokens is skipped without indices,
but it still registers every one of its tokens in the dedup map, appends one
vertex per token not seen before (the vertex count grows by exactly the
number of new distinct tokens), and later verbatim occurrences of those
tokens reuse the registered vertices. -/
theorem C10_skipped_face_registers_vertices :
    ∀ (st st1 : LoadState) (l : String) (chunks : List String)
      (faceIdx : List Nat),
      ¬(l = "" ∨ l.front = '#') →
      wordsOf l = "f" :: chunks →
      resolveChunks st chunks = .ok (st1, faceIdx) →
      faceIdx.length < 3 →
      processLine st l = .ok st1 ∧
      st1.index = st.index ∧
      (∀ c ∈ chunks, (st1.uniqueVertex.lookup c).isSome = true) ∧
      st1.vertex.length =
        st.vertex.length + (chunks.toFinset \ keysF st).card ∧
      (∀ c i, st1.uniqueVertex.lookup c = some i →
        resolveChunk st1 c = .ok (st1, i)) := by
  intro st st1 l chunks faceIdx hns hw hr hlen
  obtain ⟨s, -, -, -, hI, hreg, hK, -⟩ := resolveChunks_step _ _ _ _ hr
  refine ⟨processLine_face_short hns hw hr hlen, hI, hreg, ?_,
    fun c i hc => resolveChunk_found hc⟩
  have hcard := s.card_rel
  have hU : (keysF st1).card =
      (keysF st).card + (chunks.toFinset \ keysF st).card := by
    rw [hK, ← Finset.union_sdiff_self_eq_union,
      Finset.card_union_of_disjoint Finset.sdiff_disjoint.symm]
  omega

/-- Witness for C10 at the 2-token face of `skipFile`. -/
theorem C10_witness :
    resolveChunks skipPreState ["1", "2"] = .ok (skipMidState, [0, 1]) ∧
    processLine skipPreState "f 1 2" = .ok skipMidState ∧
    skipMidState.vertex.length =
      skipPreState.vertex.length +
        ((["1", "2"] : List String).toFinset \ keysF skipPreState).card :=
  ⟨by decide,
   (C10_skipped_face_registers_vertices skipPreState skipMidState "f 1 2"
      ["1", "2"] [0, 1] (by decide) (by decide) (by decide) (by decide)).1,
   (C10_skipped_face_registers_vertices skipPreState skipMidState "f 1 2"
      ["1", "2"] [0, 1] (by decide) (by decide) (by decide) (by decide)).2.2.2.1⟩

end UltimateReaverEngine
